import Mathlib

set_option maxRecDepth 4000

/-!
Verification of the synth-mod connection graph and value conversion system.

The definitions below are a shallow embedding of the Rust sources:

* `src/io.rs`      — the `Io` struct (here `IoState`), its connection map,
  staged input values, conversion registry, connect/disconnect, output
  propagation, input reading with conversion, instance dependency derivation
  and the Kahn-style processing-order computation (including the semantics of
  the external `topological_sort` crate it calls into).
* `src/module.rs`  — `PortId`, port compatibility.
* `src/rack/rack.rs` — `Rack::connect` / `Rack::disconnect`.

Modelling conventions: Rust `HashMap`s become association lists with
insert-or-replace update, `HashSet`s become duplicate-free lists,
`InstanceHandle` (a UUID in the source) becomes `Nat`, `TypeId` of port value
types becomes the closed enumeration `Ty`, and boxed port values become the
closed universe `Val`.
A Rust `panic!`/`unwrap`/`expect` is modelled by `Option`-valued operations
returning `none` (or by an explicit `GetRes.panic` result for input reads).
-/

/-- Model of `InstanceHandle` (src/instance/instance.rs): an opaque unique
identifier for a live module instance. -/
abbrev InstanceHandle := Nat

/-- Model of `std::any::TypeId` restricted to the value types that flow
through ports (`f32`, `bool`, `Frame` in the source; two types suffice for
the claims). -/
inductive Ty where
  | tf : Ty
  | tb : Ty
deriving DecidableEq

/-- Model of a boxed port value (`Box<dyn PortValueBoxed>`). -/
inductive Val where
  | vf : Int → Val
  | vb : Bool → Val
deriving DecidableEq

/-- Runtime type of a boxed value, as used by `downcast_ref` and
`(*boxed).type_id()` in src/io.rs. -/
def Val.tyOf : Val → Ty
  | .vf _ => .tf
  | .vb _ => .tb

/-- Model of `PortId` (src/module.rs:264-268): identifies a port role together
with the `TypeId` of the value type it carries. -/
structure PortId where
  id : Nat
  value_type : Ty
deriving DecidableEq

/-- Model of `PortHandle` (src/io.rs:271-275): one concrete port on one
concrete instance. -/
structure PortHandle where
  id : PortId
  inst : InstanceHandle
deriving DecidableEq

/-- Model of `ConnectResult` (src/io.rs:13-20). -/
inductive ConnectResult where
  | Ok : ConnectResult
  | Replace : PortHandle → PortHandle → ConnectResult
  | SameInstance : ConnectResult
  | InCompatible : ConnectResult
  | Conversion : ConnectResult
deriving DecidableEq

/-- Model of `ConnectResult::into_result` (src/io.rs:23-31). -/
def ConnectResult.into_result : ConnectResult → Except ConnectResult ConnectResult
  | .Ok => .ok .Ok
  | .Replace a b => .ok (.Replace a b)
  | .SameInstance => .error .SameInstance
  | .InCompatible => .error .InCompatible
  | .Conversion => .ok .Conversion

/-- Model of `PortId::is_compatible` (src/module.rs:278-285): two port ids are
compatible iff their value types match. -/
def PortId.is_compatible (a b : PortId) : ConnectResult :=
  if a.value_type = b.value_type then .Ok else .InCompatible

/-- Model of `PortHandle::is_compatible` (src/io.rs:285-287). -/
def PortHandle.is_compatible (a b : PortHandle) : ConnectResult :=
  a.id.is_compatible b.id

/-- Model of `ConversionId` (src/io.rs:290-295). -/
structure ConversionId where
  from_type : Ty
  to_type : Ty
  to_port : Option PortId
deriving DecidableEq

/-- Model of `ConversionId::from_ports` (src/io.rs:298-304). -/
def ConversionId.from_ports (src dst : PortHandle) : ConversionId :=
  ⟨src.id.value_type, dst.id.value_type, some dst.id⟩

/-- Model of `ConversionId::into_general` (src/io.rs:306-312). -/
def ConversionId.into_general (c : ConversionId) : ConversionId :=
  ⟨c.from_type, c.to_type, none⟩

/-- Association-list lookup, modelling `HashMap::get`. -/
def alookup {κ ν : Type} [DecidableEq κ] : List (κ × ν) → κ → Option ν
  | [], _ => none
  | e :: t, k => if e.1 = k then some e.2 else alookup t k

/-- Association-list insert-or-replace, modelling `HashMap::insert`. -/
def aupdate {κ ν : Type} [DecidableEq κ] : List (κ × ν) → κ → ν → List (κ × ν)
  | [], k, v => [(k, v)]
  | e :: t, k, v => if e.1 = k then (k, v) :: t else e :: aupdate t k v

/-- Association-list key removal, modelling `HashMap::remove`. -/
def aremove {κ ν : Type} [DecidableEq κ] : List (κ × ν) → κ → List (κ × ν)
  | [], _ => []
  | e :: t, k => if e.1 = k then t else e :: aremove t k

/-- Set insertion on a duplicate-free list, modelling `HashSet::insert`. -/
def setInsert {α : Type} [DecidableEq α] (l : List α) (x : α) : List α :=
  if x ∈ l then l else l ++ [x]

/-- Model of the `Io` struct (src/io.rs:45-51): staged input values,
connection map (output port to set of input ports), conversion registry and
the cached processing order. -/
structure IoState where
  inputs : List (PortHandle × Val)
  connections : List (PortHandle × List PortHandle)
  conversions : List (ConversionId × (Val → Val))
  processing_order : List (List InstanceHandle)

/-- Model of `Io::get_input_dyn` (src/io.rs:55-57). -/
def IoState.get_input_dyn (io : IoState) (port : PortHandle) : Option Val :=
  alookup io.inputs port

/-- Model of `Io::set_input_dyn` (src/io.rs:60-62). -/
def IoState.set_input_dyn (io : IoState) (port : PortHandle) (value : Val) : IoState :=
  { io with inputs := aupdate io.inputs port value }

/-- Model of `Io::get_conversion` (src/io.rs:90-100): the port-specific entry
is looked up first, then the type-general entry. -/
def IoState.get_conversion (io : IoState) (pid : PortId) (from_type : Ty) :
    Option (Val → Val) :=
  let conversion_id : ConversionId := ⟨from_type, pid.value_type, some pid⟩
  match alookup io.conversions conversion_id with
  | some f => some f
  | none => alookup io.conversions conversion_id.into_general

/-- Result of reading an input: either a value or a Rust panic with the
`expect` message from the source. -/
inductive GetRes where
  | ok : Val → GetRes
  | panic : String → GetRes
deriving DecidableEq

/-- Model of `Io::try_convert` (src/io.rs:79-88): `none` when no conversion is
registered; the inner `expect("should be correct type")` panic fires when the
conversion produces a value of the wrong type. -/
def IoState.try_convert (io : IoState) (pid : PortId) (boxed : Val) : Option GetRes :=
  match io.get_conversion pid boxed.tyOf with
  | none => none
  | some conversion =>
    let converted := conversion boxed
    if converted.tyOf = pid.value_type then some (.ok converted)
    else some (.panic "should be correct type")

/-- Model of `Io::try_get_input` (src/io.rs:65-76): `none` when nothing is
staged; a staged value of the declared type is returned directly; otherwise a
conversion is attempted and its absence is the `expect("should have this")`
panic. -/
def IoState.try_get_input (io : IoState) (port : PortHandle) : Option GetRes :=
  match io.get_input_dyn port with
  | none => none
  | some boxed =>
    if boxed.tyOf = port.id.value_type then some (.ok boxed)
    else
      match io.try_convert port.id boxed with
      | some r => some r
      | none => some (.panic "should have this")

/-- Model of `Io::get_input` (src/io.rs:102-109); `dflt` is the declared
default `I::default()` of the input port. -/
def IoState.get_input (io : IoState) (port : PortHandle) (dflt : Val) : GetRes :=
  match io.try_get_input port with
  | some value => value
  | none => .ok dflt

/-- Model of `Io::set_output_dyn` (src/io.rs:111-118): propagates the value to
every connected input port. -/
def IoState.set_output_dyn (io : IoState) (port : PortHandle) (value : Val) : IoState :=
  match alookup io.connections port with
  | none => io
  | some connections => connections.foldl (fun acc c => acc.set_input_dyn c value) io

/-- Helper for `Io::input_connection`: first entry of the connection map whose
input set contains the given port. -/
def findSrc : List (PortHandle × List PortHandle) → PortHandle → Option PortHandle
  | [], _ => none
  | e :: t, input => if input ∈ e.2 then some e.1 else findSrc t input

/-- Model of `Io::input_connection` (src/io.rs:125-132). -/
def IoState.input_connection (io : IoState) (input : PortHandle) : Option PortHandle :=
  findSrc io.connections input

/-- Model of `Io::can_connect` (src/io.rs:154-175). -/
def IoState.can_connect (io : IoState) (src dst : PortHandle) : ConnectResult :=
  let result := src.is_compatible dst
  let result := match result with
    | .InCompatible =>
      let conversion_id := ConversionId.from_ports src dst
      if (alookup io.conversions conversion_id).isSome
          || (alookup io.conversions conversion_id.into_general).isSome then
        ConnectResult.Conversion
      else result
    | r => r
  match result with
  | .Ok | .Conversion =>
    match io.input_connection dst with
    | some connection => .Replace connection dst
    | none => result
  | r => r

/-- Entry of the `topological_sort` crate state: element, number of
predecessors, successor set. -/
abbrev TopoEntry := InstanceHandle × Nat × List InstanceHandle

/-- State of `TopologicalSort<InstanceHandle>` from the `topological_sort`
crate used by src/io.rs. -/
abbrev Topo := List TopoEntry

/-- Registration of `succ` inside the add_dependency operation of the crate: create its entry
with one predecessor, or increment its predecessor count. -/
def topoBump (t : Topo) (succ : InstanceHandle) : Topo :=
  match alookup t succ with
  | none => t ++ [(succ, 1, [])]
  | some (n, ss) => aupdate t succ (n + 1, ss)

/-- Model of `TopologicalSort::add_dependency(prec, succ)`: a duplicate edge
is a no-op; otherwise `succ` is appended to the successor set of `prec` and
the predecessor count of `succ` is incremented. -/
def topoAddDep (t : Topo) (prec succ : InstanceHandle) : Topo :=
  match alookup t prec with
  | none => topoBump (t ++ [(prec, 0, [succ])]) succ
  | some (n, ss) =>
    if succ ∈ ss then t
    else topoBump (aupdate t prec (n, ss ++ [succ])) succ

/-- Model of `TopologicalSort::pop_all`: removes and returns every element
with no predecessors, decrementing the predecessor counts of their
successors. -/
def topoPopAll (t : Topo) : List InstanceHandle × Topo :=
  let popped := t.filter (fun e => e.2.1 == 0)
  let rest := t.filter (fun e => !(e.2.1 == 0))
  (popped.map (fun e => e.1),
   rest.map (fun e => (e.1, e.2.1 - (popped.filter (fun p => e.1 ∈ p.2.2)).length, e.2.2)))

theorem length_filter_add_length_filter_not {α : Type} (p : α → Bool) (l : List α) :
    (l.filter p).length + (l.filter (fun a => !(p a))).length = l.length := by
  induction l with
  | nil => simp
  | cons a t ih =>
    by_cases h : p a <;> simp [List.filter_cons, h] <;> omega

theorem topoPopAll_rest_length_lt (t : Topo) (h : (topoPopAll t).1 ≠ []) :
    (topoPopAll t).2.length < t.length := by
  have hsplit := length_filter_add_length_filter_not (fun e : TopoEntry => e.2.1 == 0) t
  have h1 : (t.filter (fun e : TopoEntry => e.2.1 == 0)).length ≠ 0 := by
    intro hz
    apply h
    simp only [topoPopAll]
    simp [List.map_eq_nil_iff, List.length_eq_zero] at hz ⊢
    exact hz
  simp only [topoPopAll, List.length_map]
  omega

/-- Model of the pop loop in `Io::compute_instances_processing_order`
(src/io.rs:246-255), structurally recursive on a fuel bound: pop all free
elements per pass; an empty pass on a nonempty state is the
cyclic-dependency error. Every successful pass strictly shrinks the state
(`topoPopAll_rest_length_lt`), so fuel equal to the number of elements always
suffices and the fuel-exhaustion branch is unreachable from `topoRun`
(certified by `topoRunF_fuel_irrelevant` below). -/
def topoRunF : Nat → Topo → Except String (List (List InstanceHandle))
  | _, [] => .ok []
  | 0, _ :: _ => .error "cyclic dependency"
  | fuel + 1, e :: t =>
    let p := topoPopAll (e :: t)
    if p.1 = [] then .error "cyclic dependency"
    else
      match topoRunF fuel p.2 with
      | .ok rest => .ok (p.1 :: rest)
      | .error msg => .error msg

/-- Model of the full pop loop of src/io.rs:246-255, run with sufficient
fuel. -/
def topoRun (t : Topo) : Except String (List (List InstanceHandle)) :=
  topoRunF t.length t

/-- The loop result does not depend on the fuel once the fuel is at least the
number of elements, so the fuel-exhaustion branch of `topoRunF` never
determines the value of `topoRun`. -/
theorem topoRunF_fuel_irrelevant (f1 : Nat) :
    ∀ (f2 : Nat) (t : Topo), t.length ≤ f1 → t.length ≤ f2 →
      topoRunF f1 t = topoRunF f2 t := by
  induction f1 with
  | zero =>
    intro f2 t h1 _
    have : t = [] := List.length_eq_zero.mp (Nat.le_zero.mp h1)
    subst this
    cases f2 <;> rfl
  | succ g1 ih =>
    intro f2 t h1 h2
    cases t with
    | nil => cases f2 <;> rfl
    | cons e t =>
      cases f2 with
      | zero => exact absurd h2 (by simp)
      | succ g2 =>
        simp only [topoRunF]
        by_cases hp : (topoPopAll (e :: t)).1 = []
        · simp [hp]
        · have hlt := topoPopAll_rest_length_lt (e :: t) hp
          have hrec := ih g2 (topoPopAll (e :: t)).2
            (by omega) (by omega)
          simp [hp, hrec]

/-- Insertion step of `Io::get_instances_dependencies`: record that instance
`k` depends on instance `v`. -/
def depInsert (m : List (InstanceHandle × List InstanceHandle)) (k v : InstanceHandle) :
    List (InstanceHandle × List InstanceHandle) :=
  match alookup m k with
  | none => m ++ [(k, [v])]
  | some s => aupdate m k (setInsert s v)

/-- Model of `Io::get_instances_dependencies` (src/io.rs:219-231): for every
edge, the instance of the target port depends on the instance of the source
port. -/
def IoState.get_instances_dependencies (io : IoState) :
    List (InstanceHandle × List InstanceHandle) :=
  io.connections.foldl
    (fun m e => e.2.foldl (fun m2 dst => depInsert m2 dst.inst e.1.inst) m) []

/-- Model of `Io::compute_instances_processing_order` (src/io.rs:233-256),
including the `added` filter that skips `add_dependency` when both endpoint
instances were seen before. -/
def IoState.compute_instances_processing_order (io : IoState) :
    Except String (List (List InstanceHandle)) :=
  let built := io.get_instances_dependencies.foldl
    (fun (st : Topo × List InstanceHandle) p =>
      p.2.foldl
        (fun (st2 : Topo × List InstanceHandle) dep =>
          if ¬ p.1 ∈ st2.2 ∨ ¬ dep ∈ st2.2 then
            (topoAddDep st2.1 dep p.1, setInsert (setInsert st2.2 dep) p.1)
          else st2)
        st)
    (([], []) : Topo × List InstanceHandle)
  topoRun built.1

/-- Model of `Io::update_instances_processing_order` (src/io.rs:258-260);
`none` models the `unwrap` panic on a cyclic graph. -/
def IoState.update_instances_processing_order (io : IoState) : Option IoState :=
  match io.compute_instances_processing_order with
  | .ok order => some { io with processing_order := order }
  | .error _ => none

/-- Model of `Io::connect` (src/io.rs:135-152); `none` models the panic
reachable through `update_instances_processing_order`. -/
def IoState.connect (io : IoState) (src dst : PortHandle) :
    Option (Except ConnectResult ConnectResult × IoState) :=
  match (io.can_connect src dst).into_result with
  | .error e => some (.error e, io)
  | .ok r =>
    let connections := (alookup io.connections src).getD []
    let io1 := { io with connections := aupdate io.connections src (setInsert connections dst) }
    match io1.update_instances_processing_order with
    | some io2 => some (.ok r, io2)
    | none => none

/-- Model of `Io::disconnect` (src/io.rs:177-183): when the connection map has
an entry for `src`, remove `dst` from its set, remove the staged input value
at `dst` and recompute the processing order; otherwise do nothing. -/
def IoState.disconnect (io : IoState) (src dst : PortHandle) : Option IoState :=
  match alookup io.connections src with
  | none => some io
  | some s =>
    let io1 := { io with
      connections := aupdate io.connections src (s.erase dst),
      inputs := aremove io.inputs dst }
    io1.update_instances_processing_order

/-- Modelled from the spec: `Rack::connect` (src/rack/rack.rs:196-211) matches
on `ConnectResult::Warn(ConnectResultWarn::Replace ..)` and
`ConnectResult::Err(..)` wrapper variants whose defining version of io.rs is
missing from src (the io.rs present defines the flat enum above). Per the
can_connect contract of the spec — Ok, Warn(WouldReplace(old_source, to)),
Err(SameInstance), Err(Incompatible) — the flat variants `Replace` plays the
warning role and `SameInstance`/`InCompatible` the error roles, exactly as
`ConnectResult::into_result` classifies them. On the warning, the replaced
edge is disconnected before the new edge is inserted; errors are returned as
`as_str` strings. -/
def rack_connect (io : IoState) (src dst : PortHandle) : Option (Except String IoState) :=
  match io.can_connect src dst with
  | .SameInstance => some (.error "same instance")
  | .InCompatible => some (.error "incompatible")
  | .Replace rsrc rdst =>
    match io.disconnect rsrc rdst with
    | none => none
    | some io1 =>
      match io1.connect src dst with
      | none => none
      | some (_, io2) => some (.ok io2)
  | .Ok | .Conversion =>
    match io.connect src dst with
    | none => none
    | some (_, io2) => some (.ok io2)

instance {ε α : Type} [DecidableEq ε] [DecidableEq α] : DecidableEq (Except ε α) := fun a b =>
  match a, b with
  | .ok x, .ok y => if h : x = y then isTrue (by rw [h]) else isFalse (by simp [h])
  | .ok _, .error _ => isFalse (by simp)
  | .error _, .ok _ => isFalse (by simp)
  | .error x, .error y => if h : x = y then isTrue (by rw [h]) else isFalse (by simp [h])

/-- Membership of the edge from output port `src` to input port `dst` in the
connection map. -/
def edgeIn (io : IoState) (src dst : PortHandle) : Prop :=
  dst ∈ ((alookup io.connections src).getD [])

instance (io : IoState) (src dst : PortHandle) : Decidable (edgeIn io src dst) := by
  unfold edgeIn
  infer_instance

/-- Total number of incoming edges of `p` across a connection map. -/
def sumCount (l : List (PortHandle × List PortHandle)) (p : PortHandle) : Nat :=
  (l.map (fun e => e.2.count p)).sum

/-- Number of incoming edges of the input port `p`. -/
def incomingCount (io : IoState) (p : PortHandle) : Nat :=
  sumCount io.connections p

/-- The connection-graph invariant stated by the spec: every input port has at
most one incoming edge. -/
def IoInv (io : IoState) : Prop :=
  ∀ p : PortHandle, incomingCount io p ≤ 1

/-- Well-formedness facts that hold of the Rust representation by
construction: `HashMap` keys are unique (connection map and staged-input map)
and each `HashSet` of connected inputs is duplicate-free. -/
def IoWF (io : IoState) : Prop :=
  (io.connections.map Prod.fst).Nodup ∧ (∀ e ∈ io.connections, e.2.Nodup) ∧
    (io.inputs.map Prod.fst).Nodup

/-- Instance-level edges induced by the port-level connection map, as used by
`get_instances_dependencies`. -/
def instEdges (io : IoState) : List (InstanceHandle × InstanceHandle) :=
  io.connections.foldr (fun e acc => e.2.map (fun d => (e.1.inst, d.inst)) ++ acc) []

/-- Index of the processing-order group containing instance `i`. -/
def groupIdx (order : List (List InstanceHandle)) (i : InstanceHandle) : Option Nat :=
  order.findIdx? (fun g => g.contains i)

theorem alookup_aupdate_self {κ ν : Type} [DecidableEq κ] (l : List (κ × ν)) (k : κ) (v : ν) :
    alookup (aupdate l k v) k = some v := by
  induction l with
  | nil => simp [aupdate, alookup]
  | cons e t ih =>
    by_cases h : e.1 = k <;> simp [aupdate, alookup, h, ih]

theorem alookup_aupdate_ne {κ ν : Type} [DecidableEq κ] (l : List (κ × ν)) (k k2 : κ) (v : ν)
    (h : k2 ≠ k) : alookup (aupdate l k v) k2 = alookup l k2 := by
  induction l with
  | nil => simp [aupdate, alookup, Ne.symm h]
  | cons e t ih =>
    by_cases he : e.1 = k
    · subst he
      simp [aupdate, alookup, Ne.symm h]
    · by_cases he2 : e.1 = k2 <;> simp [aupdate, alookup, he, he2, ih, h]

theorem alookup_eq_none_iff {κ ν : Type} [DecidableEq κ] (l : List (κ × ν)) (k : κ) :
    alookup l k = none ↔ k ∉ l.map Prod.fst := by
  induction l with
  | nil => simp [alookup]
  | cons e t ih =>
    by_cases h : e.1 = k
    · simp [alookup, h]
    · simp only [alookup, if_neg h, ih, List.map_cons, List.mem_cons]
      constructor
      · intro hk
        intro hor
        rcases hor with h1 | h2
        · exact h h1.symm
        · exact hk h2
      · intro hk
        intro hmem
        exact hk (Or.inr hmem)

theorem alookup_mem {κ ν : Type} [DecidableEq κ] (l : List (κ × ν)) (k : κ) (v : ν)
    (h : alookup l k = some v) : (k, v) ∈ l := by
  induction l with
  | nil => simp [alookup] at h
  | cons e t ih =>
    by_cases he : e.1 = k
    · simp only [alookup, if_pos he, Option.some.injEq] at h
      have : e = (k, v) := by
        obtain ⟨e1, e2⟩ := e
        simp only [Prod.mk.injEq]
        exact ⟨he, h⟩
      rw [← this]
      exact List.mem_cons_self _ _
    · simp only [alookup, if_neg he] at h
      exact List.mem_cons_of_mem _ (ih h)

theorem alookup_of_mem_keysNodup {κ ν : Type} [DecidableEq κ] (l : List (κ × ν)) (k : κ) (v : ν)
    (hnd : (l.map Prod.fst).Nodup) (hm : (k, v) ∈ l) : alookup l k = some v := by
  induction l with
  | nil => simp at hm
  | cons e t ih =>
    simp only [List.map_cons, List.nodup_cons] at hnd
    rcases List.mem_cons.mp hm with heq | hmt
    · subst heq
      simp [alookup]
    · have hne : e.1 ≠ k := by
        intro hk
        exact hnd.1 (hk ▸ List.mem_map_of_mem Prod.fst hmt)
      simp [alookup, hne, ih hnd.2 hmt]

theorem keys_aupdate_some {κ ν : Type} [DecidableEq κ] (l : List (κ × ν)) (k : κ) (v v0 : ν)
    (h : alookup l k = some v0) : (aupdate l k v).map Prod.fst = l.map Prod.fst := by
  induction l with
  | nil => simp [alookup] at h
  | cons e t ih =>
    by_cases he : e.1 = k
    · simp [aupdate, he]
    · simp only [alookup, if_neg he] at h
      simp [aupdate, he, ih h]

theorem keys_aupdate_none {κ ν : Type} [DecidableEq κ] (l : List (κ × ν)) (k : κ) (v : ν)
    (h : alookup l k = none) : (aupdate l k v).map Prod.fst = l.map Prod.fst ++ [k] := by
  induction l with
  | nil => simp [aupdate]
  | cons e t ih =>
    by_cases he : e.1 = k
    · simp [alookup, he] at h
    · simp only [alookup, if_neg he] at h
      simp [aupdate, he, ih h]

theorem mem_aupdate {κ ν : Type} [DecidableEq κ] (l : List (κ × ν)) (k : κ) (v : ν)
    (e : κ × ν) (h : e ∈ aupdate l k v) : e = (k, v) ∨ e ∈ l := by
  induction l with
  | nil => simp [aupdate] at h; simp [h]
  | cons e0 t ih =>
    by_cases he : e0.1 = k
    · simp only [aupdate, if_pos he] at h
      rcases List.mem_cons.mp h with h1 | h2
      · exact Or.inl h1
      · exact Or.inr (List.mem_cons_of_mem _ h2)
    · simp only [aupdate, if_neg he] at h
      rcases List.mem_cons.mp h with h1 | h2
      · exact Or.inr (h1 ▸ List.mem_cons_self _ _)
      · rcases ih h2 with h3 | h4
        · exact Or.inl h3
        · exact Or.inr (List.mem_cons_of_mem _ h4)

theorem aremove_sublist {κ ν : Type} [DecidableEq κ] (l : List (κ × ν)) (k : κ) :
    (aremove l k).Sublist l := by
  induction l with
  | nil => simp [aremove]
  | cons e t ih =>
    by_cases he : e.1 = k
    · simp only [aremove, if_pos he]
      exact (List.sublist_cons_self e t)
    · simp only [aremove, if_neg he]
      exact List.Sublist.cons₂ e ih

theorem alookup_aremove_self {κ ν : Type} [DecidableEq κ] (l : List (κ × ν)) (k : κ)
    (hnd : (l.map Prod.fst).Nodup) : alookup (aremove l k) k = none := by
  induction l with
  | nil => simp [aremove, alookup]
  | cons e t ih =>
    simp only [List.map_cons, List.nodup_cons] at hnd
    by_cases he : e.1 = k
    · simp only [aremove, if_pos he]
      rw [alookup_eq_none_iff]
      intro hmem
      exact hnd.1 (he ▸ hmem)
    · simp [aremove, alookup, he, ih hnd.2]

theorem alookup_aremove_ne {κ ν : Type} [DecidableEq κ] (l : List (κ × ν)) (k k2 : κ)
    (h : k2 ≠ k) : alookup (aremove l k) k2 = alookup l k2 := by
  induction l with
  | nil => simp [aremove]
  | cons e t ih =>
    by_cases he : e.1 = k
    · simp [aremove, alookup, he, Ne.symm h]
    · by_cases he2 : e.1 = k2 <;> simp [aremove, alookup, he, he2, ih, h]

theorem sumCount_aupdate (l : List (PortHandle × List PortHandle)) (k : PortHandle)
    (v : List PortHandle) (p : PortHandle) :
    sumCount (aupdate l k v) p + ((alookup l k).getD []).count p
      = sumCount l p + v.count p := by
  induction l with
  | nil => simp [aupdate, alookup, sumCount]
  | cons e t ih =>
    by_cases he : e.1 = k
    · simp only [aupdate, if_pos he, alookup, sumCount, List.map_cons, List.sum_cons,
        Option.getD_some]
      omega
    · simp only [aupdate, if_neg he, alookup, sumCount, List.map_cons, List.sum_cons,
        Option.getD_some]
      simp only [sumCount] at ih
      omega

theorem sumCount_eq_zero_iff (l : List (PortHandle × List PortHandle)) (p : PortHandle) :
    sumCount l p = 0 ↔ ∀ e ∈ l, p ∉ e.2 := by
  induction l with
  | nil => simp [sumCount]
  | cons e t ih =>
    simp only [sumCount, List.map_cons, List.sum_cons, Nat.add_eq_zero, List.mem_cons]
    constructor
    · intro h e2 hmem
      rcases hmem with heq | hmt
      · subst heq
        exact List.count_eq_zero.mp h.1
      · exact (ih.mp h.2) e2 hmt
    · intro h
      refine ⟨List.count_eq_zero.mpr (h e (Or.inl rfl)), ih.mpr ?_⟩
      intro e2 hmt
      exact h e2 (Or.inr hmt)

theorem count_le_sumCount (l : List (PortHandle × List PortHandle)) (k : PortHandle)
    (s : List PortHandle) (p : PortHandle) (h : (k, s) ∈ l) : s.count p ≤ sumCount l p := by
  induction l with
  | nil => simp at h
  | cons e t ih =>
    simp only [sumCount, List.map_cons, List.sum_cons]
    rcases List.mem_cons.mp h with heq | hmt
    · subst heq
      have hs : ((k, s).2 : List PortHandle) = s := rfl
      rw [hs]
      omega
    · have := ih hmt
      simp only [sumCount] at this
      omega

theorem findSrc_eq_none_iff (l : List (PortHandle × List PortHandle)) (p : PortHandle) :
    findSrc l p = none ↔ ∀ e ∈ l, p ∉ e.2 := by
  induction l with
  | nil => simp [findSrc]
  | cons e t ih =>
    by_cases h : p ∈ e.2
    · simp [findSrc, h]
    · simp only [findSrc, if_neg h, ih, List.mem_cons]
      constructor
      · intro ha e2 hor
        rcases hor with heq | hmt
        · subst heq; exact h
        · exact ha e2 hmt
      · intro ha e2 hmt
        exact ha e2 (Or.inr hmt)

theorem findSrc_some_mem (l : List (PortHandle × List PortHandle)) (p c : PortHandle)
    (h : findSrc l p = some c) : ∃ s, (c, s) ∈ l ∧ p ∈ s := by
  induction l with
  | nil => simp [findSrc] at h
  | cons e t ih =>
    by_cases hm : p ∈ e.2
    · simp only [findSrc, if_pos hm, Option.some.injEq] at h
      exact ⟨e.2, by rw [← h]; exact List.mem_cons_self _ _, hm⟩
    · simp only [findSrc, if_neg hm] at h
      obtain ⟨s, hs1, hs2⟩ := ih h
      exact ⟨s, List.mem_cons_of_mem _ hs1, hs2⟩

theorem findSrc_none_of_sumCount_zero (l : List (PortHandle × List PortHandle))
    (p : PortHandle) (h : sumCount l p = 0) : findSrc l p = none :=
  (findSrc_eq_none_iff l p).mpr ((sumCount_eq_zero_iff l p).mp h)

/-- Availability of a registered conversion for the pair of declared port
value types, as tested by `Io::can_connect`. -/
def conversionOk (io : IoState) (src dst : PortHandle) : Prop :=
  (alookup io.conversions (ConversionId.from_ports src dst)).isSome = true
    ∨ (alookup io.conversions (ConversionId.from_ports src dst).into_general).isSome = true

instance (io : IoState) (src dst : PortHandle) : Decidable (conversionOk io src dst) := by
  unfold conversionOk
  infer_instance

theorem can_connect_eq (io : IoState) (src dst : PortHandle) :
    io.can_connect src dst =
      if src.id.value_type = dst.id.value_type then
        match io.input_connection dst with
        | some c => ConnectResult.Replace c dst
        | none => ConnectResult.Ok
      else if (alookup io.conversions (ConversionId.from_ports src dst)).isSome
          || (alookup io.conversions (ConversionId.from_ports src dst).into_general).isSome then
        match io.input_connection dst with
        | some c => ConnectResult.Replace c dst
        | none => ConnectResult.Conversion
      else ConnectResult.InCompatible := by
  unfold IoState.can_connect PortHandle.is_compatible PortId.is_compatible
  by_cases hvt : src.id.value_type = dst.id.value_type
  · simp only [if_pos hvt]
  · simp only [if_neg hvt]
    by_cases hcv : ((alookup io.conversions (ConversionId.from_ports src dst)).isSome
        || (alookup io.conversions (ConversionId.from_ports src dst).into_general).isSome) = true
    · simp only [hcv, if_true]
    · simp only [Bool.not_eq_true] at hcv
      simp [hcv]

theorem can_connect_replace_inv (io : IoState) (src dst c d : PortHandle)
    (h : io.can_connect src dst = .Replace c d) :
    d = dst ∧ io.input_connection dst = some c ∧
      (src.id.value_type = dst.id.value_type ∨ conversionOk io src dst) := by
  rw [can_connect_eq] at h
  by_cases hvt : src.id.value_type = dst.id.value_type
  · rw [if_pos hvt] at h
    cases hic : io.input_connection dst with
    | some x =>
      rw [hic] at h
      simp only [ConnectResult.Replace.injEq] at h
      exact ⟨h.2.symm, by rw [h.1], Or.inl hvt⟩
    | none => rw [hic] at h; cases h
  · rw [if_neg hvt] at h
    by_cases hcv : ((alookup io.conversions (ConversionId.from_ports src dst)).isSome
        || (alookup io.conversions (ConversionId.from_ports src dst).into_general).isSome) = true
    · rw [if_pos hcv] at h
      cases hic : io.input_connection dst with
      | some x =>
        rw [hic] at h
        simp only [ConnectResult.Replace.injEq] at h
        refine ⟨h.2.symm, by rw [h.1], Or.inr ?_⟩
        rw [Bool.or_eq_true] at hcv
        exact hcv
      | none => rw [hic] at h; cases h
    · simp only [Bool.not_eq_true] at hcv
      rw [if_neg (by simp [hcv])] at h
      cases h

theorem can_connect_of_no_source (io : IoState) (src dst : PortHandle)
    (h1 : src.id.value_type = dst.id.value_type ∨ conversionOk io src dst)
    (h2 : io.input_connection dst = none) :
    io.can_connect src dst = .Ok ∨ io.can_connect src dst = .Conversion := by
  rw [can_connect_eq]
  by_cases hvt : src.id.value_type = dst.id.value_type
  · rw [if_pos hvt, h2]
    exact Or.inl rfl
  · have hcv : conversionOk io src dst := h1.resolve_left hvt
    have hb : ((alookup io.conversions (ConversionId.from_ports src dst)).isSome
        || (alookup io.conversions (ConversionId.from_ports src dst).into_general).isSome)
          = true := by
      rw [Bool.or_eq_true]
      exact hcv
    rw [if_neg hvt, if_pos hb, h2]
    exact Or.inr rfl

theorem can_connect_of_source (io : IoState) (src dst c : PortHandle)
    (h1 : src.id.value_type = dst.id.value_type ∨ conversionOk io src dst)
    (h2 : io.input_connection dst = some c) :
    io.can_connect src dst = .Replace c dst := by
  rw [can_connect_eq]
  by_cases hvt : src.id.value_type = dst.id.value_type
  · rw [if_pos hvt, h2]
  · have hcv : conversionOk io src dst := h1.resolve_left hvt
    have hb : ((alookup io.conversions (ConversionId.from_ports src dst)).isSome
        || (alookup io.conversions (ConversionId.from_ports src dst).into_general).isSome)
          = true := by
      rw [Bool.or_eq_true]
      exact hcv
    rw [if_neg hvt, if_pos hb, h2]

theorem can_connect_no_source_of_ok_or_conv (io : IoState) (src dst : PortHandle)
    (h : io.can_connect src dst = .Ok ∨ io.can_connect src dst = .Conversion) :
    io.input_connection dst = none := by
  rw [can_connect_eq] at h
  cases hic : io.input_connection dst with
  | none => rfl
  | some x =>
    rw [hic] at h
    by_cases hvt : src.id.value_type = dst.id.value_type
    · rw [if_pos hvt] at h
      rcases h with h | h <;> cases h
    · rw [if_neg hvt] at h
      by_cases hcv : ((alookup io.conversions (ConversionId.from_ports src dst)).isSome
          || (alookup io.conversions (ConversionId.from_ports src dst).into_general).isSome) = true
      · rw [if_pos hcv] at h
        rcases h with h | h <;> cases h
      · rw [if_neg hcv] at h
        rcases h with h | h <;> cases h

theorem connect_some_ok_inv (io io2 : IoState) (src dst : PortHandle) (r : ConnectResult)
    (h : io.connect src dst = some (.ok r, io2)) :
    (io.can_connect src dst).into_result = .ok r ∧
      io2.inputs = io.inputs ∧ io2.conversions = io.conversions ∧
      io2.connections
        = aupdate io.connections src (setInsert ((alookup io.connections src).getD []) dst) := by
  unfold IoState.connect at h
  cases hcc : (io.can_connect src dst).into_result with
  | error e =>
    rw [hcc] at h
    simp at h
  | ok r0 =>
    rw [hcc] at h
    simp only [IoState.update_instances_processing_order] at h
    cases hco : IoState.compute_instances_processing_order
        { io with connections
            := aupdate io.connections src (setInsert ((alookup io.connections src).getD []) dst) } with
    | error e =>
      rw [hco] at h
      simp at h
    | ok order =>
      rw [hco] at h
      simp only [Option.some.injEq, Prod.mk.injEq, Except.ok.injEq] at h
      obtain ⟨hr, hio⟩ := h
      subst hr
      rw [← hio]
      exact ⟨rfl, rfl, rfl, rfl⟩

theorem connect_some_err_inv (io io2 : IoState) (src dst : PortHandle) (e : ConnectResult)
    (h : io.connect src dst = some (.error e, io2)) :
    (io.can_connect src dst).into_result = .error e ∧ io2 = io := by
  unfold IoState.connect at h
  cases hcc : (io.can_connect src dst).into_result with
  | error e0 =>
    rw [hcc] at h
    simp only [Option.some.injEq, Prod.mk.injEq, Except.error.injEq] at h
    constructor
    · rw [h.1]
    · exact h.2.symm
  | ok r0 =>
    rw [hcc] at h
    simp only [IoState.update_instances_processing_order] at h
    cases hco : IoState.compute_instances_processing_order
        { io with connections
            := aupdate io.connections src (setInsert ((alookup io.connections src).getD []) dst) } with
    | error e0 => rw [hco] at h; simp at h
    | ok order => rw [hco] at h; simp at h

theorem disconnect_some_inv (io io1 : IoState) (src dst : PortHandle)
    (h : io.disconnect src dst = some io1) :
    (alookup io.connections src = none ∧ io1 = io) ∨
      (∃ s, alookup io.connections src = some s ∧
        io1.inputs = aremove io.inputs dst ∧
        io1.connections = aupdate io.connections src (s.erase dst) ∧
        io1.conversions = io.conversions) := by
  unfold IoState.disconnect at h
  cases hal : alookup io.connections src with
  | none =>
    rw [hal] at h
    simp only [Option.some.injEq] at h
    exact Or.inl ⟨rfl, h.symm⟩
  | some s =>
    rw [hal] at h
    simp only [IoState.update_instances_processing_order] at h
    cases hco : IoState.compute_instances_processing_order
        { io with connections := aupdate io.connections src (s.erase dst),
                  inputs := aremove io.inputs dst } with
    | error e => rw [hco] at h; simp at h
    | ok order =>
      rw [hco] at h
      simp only [Option.some.injEq] at h
      exact Or.inr ⟨s, rfl, by rw [← h], by rw [← h], by rw [← h]⟩

theorem setInsert_of_mem {α : Type} [DecidableEq α] (l : List α) (x : α) (h : x ∈ l) :
    setInsert l x = l := by
  simp [setInsert, h]

theorem setInsert_of_not_mem {α : Type} [DecidableEq α] (l : List α) (x : α) (h : x ∉ l) :
    setInsert l x = l ++ [x] := by
  simp [setInsert, h]

theorem mem_setInsert_self {α : Type} [DecidableEq α] (l : List α) (x : α) :
    x ∈ setInsert l x := by
  by_cases h : x ∈ l
  · rw [setInsert_of_mem l x h]
    exact h
  · rw [setInsert_of_not_mem l x h]
    exact List.mem_append_right l (List.mem_singleton.mpr rfl)

theorem setInsert_nodup {α : Type} [DecidableEq α] (l : List α) (x : α) (h : l.Nodup) :
    (setInsert l x).Nodup := by
  by_cases hm : x ∈ l
  · rw [setInsert_of_mem l x hm]
    exact h
  · rw [setInsert_of_not_mem l x hm]
    rw [List.nodup_append]
    refine ⟨h, List.nodup_singleton x, ?_⟩
    intro a ha hb
    rw [List.mem_singleton] at hb
    subst hb
    exact hm ha

theorem count_setInsert_ne (l : List PortHandle) (x p : PortHandle) (h : p ≠ x) :
    (setInsert l x).count p = l.count p := by
  by_cases hm : x ∈ l
  · rw [setInsert_of_mem l x hm]
  · rw [setInsert_of_not_mem l x hm, List.count_append, List.count_singleton']
    simp [Ne.symm h]

theorem sumCount_zero_of_findSrc_none (l : List (PortHandle × List PortHandle)) (p : PortHandle)
    (h : findSrc l p = none) : sumCount l p = 0 :=
  (sumCount_eq_zero_iff _ _).mpr ((findSrc_eq_none_iff _ _).mp h)

theorem sumCount_insert_dst (conns : List (PortHandle × List PortHandle)) (src dst : PortHandle)
    (h : sumCount conns dst = 0) :
    sumCount (aupdate conns src (setInsert ((alookup conns src).getD []) dst)) dst = 1 := by
  have hgen := sumCount_aupdate conns src (setInsert ((alookup conns src).getD []) dst) dst
  have hcs0 : ((alookup conns src).getD []).count dst = 0 := by
    cases hal : alookup conns src with
    | none => simp
    | some cs =>
      simp only [Option.getD_some]
      have hm := alookup_mem _ _ _ hal
      have := count_le_sumCount conns src cs dst hm
      omega
  have hnm : dst ∉ ((alookup conns src).getD []) := List.count_eq_zero.mp hcs0
  rw [setInsert_of_not_mem _ _ hnm, List.count_append] at hgen
  have hone : ([dst] : List PortHandle).count dst = 1 := by simp
  rw [hone] at hgen
  rw [setInsert_of_not_mem _ _ hnm]
  omega

theorem sumCount_insert_ne (conns : List (PortHandle × List PortHandle)) (src dst p : PortHandle)
    (h : p ≠ dst) :
    sumCount (aupdate conns src (setInsert ((alookup conns src).getD []) dst)) p
      = sumCount conns p := by
  have hgen := sumCount_aupdate conns src (setInsert ((alookup conns src).getD []) dst) p
  rw [count_setInsert_ne _ _ _ h] at hgen
  omega

theorem wf_connections_aupdate (conns : List (PortHandle × List PortHandle)) (k : PortHandle)
    (v : List PortHandle) (hk : (conns.map Prod.fst).Nodup) (hv : v.Nodup)
    (he : ∀ e ∈ conns, e.2.Nodup) :
    ((aupdate conns k v).map Prod.fst).Nodup ∧ ∀ e ∈ aupdate conns k v, e.2.Nodup := by
  constructor
  · cases hal : alookup conns k with
    | some s =>
      rw [keys_aupdate_some conns k v s hal]
      exact hk
    | none =>
      rw [keys_aupdate_none conns k v hal]
      rw [List.nodup_append]
      refine ⟨hk, List.nodup_singleton k, ?_⟩
      intro a ha hb
      rw [List.mem_singleton] at hb
      subst hb
      exact (alookup_eq_none_iff conns a).mp hal ha
  · intro e he2
    rcases mem_aupdate conns k v e he2 with h1 | h2
    · rw [h1]
      exact hv
    · exact he e h2

theorem connect_effects (io io2 : IoState) (src dst : PortHandle) (r : ConnectResult)
    (hwf : IoWF io) (h : io.connect src dst = some (.ok r, io2)) :
    IoWF io2 ∧ edgeIn io2 src dst ∧
      (∀ p, p ≠ dst → incomingCount io2 p = incomingCount io p) ∧
      (incomingCount io dst = 0 → incomingCount io2 dst = 1) ∧
      (∀ k, k ≠ src → alookup io2.connections k = alookup io.connections k) ∧
      io2.inputs = io.inputs ∧ io2.conversions = io.conversions := by
  obtain ⟨hcc, hin, hcv, hconn⟩ := connect_some_ok_inv io io2 src dst r h
  have hcsnd : ((alookup io.connections src).getD []).Nodup := by
    cases hal : alookup io.connections src with
    | none => simp
    | some cs =>
      simp only [Option.getD_some]
      exact hwf.2.1 (src, cs) (alookup_mem _ _ _ hal)
  refine ⟨?_, ?_, ?_, ?_, ?_, hin, hcv⟩
  · unfold IoWF
    rw [hconn, hin]
    have := wf_connections_aupdate io.connections src
      (setInsert ((alookup io.connections src).getD []) dst) hwf.1
      (setInsert_nodup _ _ hcsnd) hwf.2.1
    exact ⟨this.1, this.2, hwf.2.2⟩
  · unfold edgeIn
    rw [hconn, alookup_aupdate_self, Option.getD_some]
    exact mem_setInsert_self _ _
  · intro p hp
    unfold incomingCount
    rw [hconn]
    exact sumCount_insert_ne io.connections src dst p hp
  · intro h0
    unfold incomingCount
    rw [hconn]
    exact sumCount_insert_dst io.connections src dst h0
  · intro k hk
    rw [hconn]
    exact alookup_aupdate_ne io.connections src k _ hk

theorem disconnect_preserves (io io1 : IoState) (src dst : PortHandle)
    (hwf : IoWF io) (hinv : IoInv io) (h : io.disconnect src dst = some io1) :
    IoWF io1 ∧ IoInv io1 := by
  rcases disconnect_some_inv io io1 src dst h with ⟨_, heq⟩ | ⟨s, hal, hin, hconn, _⟩
  · subst heq
    exact ⟨hwf, hinv⟩
  · have hsnd : s.Nodup := hwf.2.1 (src, s) (alookup_mem _ _ _ hal)
    constructor
    · unfold IoWF
      rw [hconn, hin]
      have := wf_connections_aupdate io.connections src (s.erase dst) hwf.1
        (hsnd.erase dst) hwf.2.1
      refine ⟨this.1, this.2, ?_⟩
      exact hwf.2.2.sublist ((aremove_sublist io.inputs dst).map Prod.fst)
    · intro p
      have hgen := sumCount_aupdate io.connections src (s.erase dst) p
      rw [hal, Option.getD_some] at hgen
      have hle : (s.erase dst).count p ≤ s.count p :=
        (List.erase_sublist dst s).count_le p
      have := hinv p
      unfold incomingCount at this ⊢
      rw [hconn]
      omega

theorem disconnect_effects_found (io io1 : IoState) (c dst : PortHandle) (s : List PortHandle)
    (hwf : IoWF io) (hinv : IoInv io)
    (hal : alookup io.connections c = some s) (hmem : dst ∈ s)
    (h : io.disconnect c dst = some io1) :
    IoWF io1 ∧ incomingCount io1 dst = 0 ∧
      (∀ p, p ≠ dst → incomingCount io1 p = incomingCount io p) ∧
      alookup io1.connections c = some (s.erase dst) ∧
      (∀ k, k ≠ c → alookup io1.connections k = alookup io.connections k) ∧
      dst ∉ s.erase dst ∧
      io1.inputs = aremove io.inputs dst ∧ io1.conversions = io.conversions := by
  rcases disconnect_some_inv io io1 c dst h with ⟨hnone, _⟩ | ⟨s2, hal2, hin, hconn, hcv⟩
  · rw [hal] at hnone
    cases hnone
  · rw [hal] at hal2
    injection hal2 with hs2
    subst hs2
    have hsnd : s.Nodup := hwf.2.1 (c, s) (alookup_mem _ _ _ hal)
    have hcount1 : s.count dst = 1 := by
      have h1 : 0 < s.count dst := List.count_pos_iff.mpr hmem
      have h2 : s.count dst ≤ sumCount io.connections dst :=
        count_le_sumCount io.connections c s dst (alookup_mem _ _ _ hal)
      have h3 := hinv dst
      unfold incomingCount at h3
      omega
    have herase0 : (s.erase dst).count dst = 0 := by
      rw [List.count_erase_self]
      omega
    refine ⟨?_, ?_, ?_, ?_, ?_, List.count_eq_zero.mp herase0, hin, hcv⟩
    · unfold IoWF
      rw [hconn, hin]
      have := wf_connections_aupdate io.connections c (s.erase dst) hwf.1
        (hsnd.erase dst) hwf.2.1
      refine ⟨this.1, this.2, ?_⟩
      exact hwf.2.2.sublist ((aremove_sublist io.inputs dst).map Prod.fst)
    · have hgen := sumCount_aupdate io.connections c (s.erase dst) dst
      rw [hal, Option.getD_some, herase0] at hgen
      have h3 := hinv dst
      have h2 : s.count dst ≤ sumCount io.connections dst :=
        count_le_sumCount io.connections c s dst (alookup_mem _ _ _ hal)
      unfold incomingCount at h3 ⊢
      rw [hconn]
      omega
    · intro p hp
      have hgen := sumCount_aupdate io.connections c (s.erase dst) p
      rw [hal, Option.getD_some, List.count_erase_of_ne hp s] at hgen
      unfold incomingCount
      rw [hconn]
      omega
    · rw [hconn]
      exact alookup_aupdate_self io.connections c (s.erase dst)
    · intro k hk
      rw [hconn]
      exact alookup_aupdate_ne io.connections c k _ hk

theorem get_input_of_none (io : IoState) (p : PortHandle) (dflt : Val)
    (h : alookup io.inputs p = none) : io.get_input p dflt = .ok dflt := by
  unfold IoState.get_input IoState.try_get_input IoState.get_input_dyn
  rw [h]

theorem foldl_set_input_lookup (conns : List PortHandle) (io : IoState) (v : Val)
    (p : PortHandle) :
    alookup (conns.foldl (fun acc c => acc.set_input_dyn c v) io).inputs p
      = if p ∈ conns then some v else alookup io.inputs p := by
  induction conns generalizing io with
  | nil => simp
  | cons c t ih =>
    simp only [List.foldl_cons, List.mem_cons]
    rw [ih]
    by_cases hpt : p ∈ t
    · simp [hpt]
    · by_cases hpc : c = p
      · subst hpc
        simp [hpt, IoState.set_input_dyn, alookup_aupdate_self]
      · simp only [hpt, if_false, or_false]
        rw [if_neg (fun hh => hpc hh.symm)]
        exact alookup_aupdate_ne io.inputs c p v (fun hh => hpc hh.symm)

theorem foldl_set_input_fields (conns : List PortHandle) (io : IoState) (v : Val) :
    (conns.foldl (fun acc c => acc.set_input_dyn c v) io).connections = io.connections ∧
      (conns.foldl (fun acc c => acc.set_input_dyn c v) io).conversions = io.conversions := by
  induction conns generalizing io with
  | nil => exact ⟨rfl, rfl⟩
  | cons c t ih => exact ih (io.set_input_dyn c v)

theorem set_output_dyn_fields (io : IoState) (src : PortHandle) (v : Val) :
    (io.set_output_dyn src v).connections = io.connections ∧
      (io.set_output_dyn src v).conversions = io.conversions := by
  unfold IoState.set_output_dyn
  cases alookup io.connections src with
  | none => exact ⟨rfl, rfl⟩
  | some conns => exact foldl_set_input_fields conns io v

theorem get_conversion_congr (io io2 : IoState) (pid : PortId) (ty : Ty)
    (h : io2.conversions = io.conversions) :
    io2.get_conversion pid ty = io.get_conversion pid ty := by
  unfold IoState.get_conversion
  rw [h]

/-- Output port of instance `i` used in the concrete counterexample states. -/
def outPort (i : Nat) : PortHandle := ⟨⟨0, .tf⟩, i⟩

/-- Input port of instance `i` used in the concrete counterexample states. -/
def inPort (i : Nat) : PortHandle := ⟨⟨1, .tf⟩, i⟩

/-- Connection set whose instance edges are the chain 0→1→2→3, listed in the
order 0→1, 2→3, 1→2. -/
def ioChainExample : IoState :=
  ⟨[], [(outPort 0, [inPort 1]), (outPort 2, [inPort 3]), (outPort 1, [inPort 2])], [], []⟩

/-- Connection set forming a two-instance cycle 0→1, 1→0. -/
def ioTwoCycle : IoState :=
  ⟨[], [(outPort 0, [inPort 1]), (outPort 1, [inPort 0])], [], []⟩

/-- State holding the single edge 0→1, about to receive the closing edge of a
two-instance cycle. -/
def ioOneEdge : IoState := ⟨[], [(outPort 0, [inPort 1])], [], [[0], [1]]⟩

/-- C1: the spec claims that for two ports on the same instance `can_connect`
returns Err(SameInstance) and `connect` returns that error leaving the state
unchanged. In the code the `SameInstance` variant is never constructed:
`PortId::is_compatible` compares only value types, so `can_connect` accepts a
same-instance pair (result `Ok`), and `connect` inserts the self-edge and then
panics in `update_instances_processing_order` — the self-edge makes the
instance dependency graph cyclic and the `unwrap` fires (modelled by `none`).
This refutes the claim and exhibits the divergence. -/
theorem c1_same_instance_not_rejected :
    IoState.can_connect ⟨[], [], [], []⟩ ⟨⟨0, .tf⟩, 0⟩ ⟨⟨1, .tf⟩, 0⟩ = ConnectResult.Ok ∧
      IoState.connect ⟨[], [], [], []⟩ ⟨⟨0, .tf⟩, 0⟩ ⟨⟨1, .tf⟩, 0⟩ = none :=
  ⟨rfl, rfl⟩

/-- C2: the spec claims that for every DAG the computed processing order
respects every edge. The `added` filter in
`compute_instances_processing_order` skips `add_dependency` when both
endpoint instances were seen before, so on the chain 0→1→2→3 (edges iterated
in the order 0→1, 2→3, 1→2) the dependency 1→2 is dropped: the computed order
is [[0,2],[1,3]], in which instance 1 appears in a strictly later group than
instance 2 although the edge 1→2 requires the opposite. The first conjunct
certifies the input is a DAG (instance ids strictly increase along every
edge). -/
theorem c2_dag_order_violates_edge :
    (instEdges ioChainExample).all (fun e => decide (e.1 < e.2)) = true ∧
      ioChainExample.compute_instances_processing_order = .ok [[0, 2], [1, 3]] ∧
      (1, 2) ∈ instEdges ioChainExample ∧
      groupIdx [[0, 2], [1, 3]] 1 = some 1 ∧
      groupIdx [[0, 2], [1, 3]] 2 = some 0 := by
  refine ⟨by decide, by rfl, by decide, by rfl, by rfl⟩

/-- C4: the spec claims a two-instance edge cycle makes order computation
report a cyclic-dependency error, returned as a value to the caller of connect
without panicking. In the code the `added` filter drops the closing edge of
the cycle before it reaches the topological sort: on the cycle 0→1, 1→0 the
computation returns Ok with the order [[0],[1]], which violates the edge 1→0
(instance 1 is placed after instance 0), and `connect` of the closing edge
succeeds silently with that incorrect order installed — no error value and no
panic, but also no detection. -/
theorem c4_cycle_not_reported :
    ioTwoCycle.compute_instances_processing_order = .ok [[0], [1]] ∧
      (1, 0) ∈ instEdges ioTwoCycle ∧
      groupIdx [[0], [1]] 1 = some 1 ∧
      groupIdx [[0], [1]] 0 = some 0 ∧
      ioOneEdge.connect (outPort 1) (inPort 0) =
        some (.ok .Ok, ⟨[], [(outPort 0, [inPort 1]), (outPort 1, [inPort 0])], [], [[0], [1]]⟩) :=
  ⟨by rfl, by decide, by rfl, by rfl, by rfl⟩

/-- C7: `set_output_dyn` immediately and synchronously stages the value at
every input port connected from the given output port, and leaves the staged
value of every input port not connected from it unchanged. -/
theorem c7_set_output_propagates (io : IoState) (src dst : PortHandle) (v : Val) :
    (edgeIn io src dst → alookup (io.set_output_dyn src v).inputs dst = some v) ∧
      (¬ edgeIn io src dst →
        alookup (io.set_output_dyn src v).inputs dst = alookup io.inputs dst) := by
  unfold IoState.set_output_dyn edgeIn
  cases hal : alookup io.connections src with
  | none =>
    constructor
    · intro h
      simp at h
    · intro _
      rfl
  | some conns =>
    simp only [Option.getD_some]
    rw [foldl_set_input_lookup conns io v dst]
    constructor
    · intro h
      rw [if_pos h]
    · intro h
      rw [if_neg h]

/-- Input port of instance 5 with value type f32, staged directly in the
concrete witness states. -/
def qIn : PortHandle := ⟨⟨2, .tf⟩, 5⟩

/-- Witness state for C7: edge from `outPort 0` to `inPort 1`, staged value at
the unconnected input `qIn`. -/
def ioPropagate : IoState := ⟨[(qIn, .vf 5)], [(outPort 0, [inPort 1])], [], [[0], [1]]⟩

theorem c7_set_output_propagates_witness :
    edgeIn ioPropagate (outPort 0) (inPort 1) ∧
      alookup ((ioPropagate.set_output_dyn (outPort 0) (.vf 9)).inputs) (inPort 1)
        = some (.vf 9) ∧
      ¬ edgeIn ioPropagate (outPort 0) qIn ∧
      alookup ((ioPropagate.set_output_dyn (outPort 0) (.vf 9)).inputs) qIn
        = alookup ioPropagate.inputs qIn :=
  ⟨by decide,
   (c7_set_output_propagates ioPropagate (outPort 0) (inPort 1) (.vf 9)).1 (by decide),
   by decide,
   (c7_set_output_propagates ioPropagate (outPort 0) qIn (.vf 9)).2 (by decide)⟩

/-- C9: `get_input` returns the declared default exactly on the no-staged-value
code path, and when a staged value of a different concrete type has no
registered conversion (port-specific or type-general), `get_input` panics with
the `expect("should have this")` message instead of returning the default or
an error value. -/
theorem c9_get_input_default_or_panic (io : IoState) (p : PortHandle) (dflt : Val) :
    (alookup io.inputs p = none → io.get_input p dflt = .ok dflt) ∧
      (∀ v, alookup io.inputs p = some v → v.tyOf ≠ p.id.value_type →
        io.get_conversion p.id v.tyOf = none →
        io.get_input p dflt = .panic "should have this") := by
  constructor
  · exact get_input_of_none io p dflt
  · intro v hv hty hconv
    unfold IoState.get_input IoState.try_get_input IoState.get_input_dyn IoState.try_convert
    rw [hv]
    dsimp only
    rw [if_neg hty, hconv]

/-- Witness state for C9: a bool value staged at an f32 port with an empty
conversion registry. -/
def ioStale : IoState := ⟨[(qIn, .vb true)], [], [], []⟩

theorem c9_get_input_default_or_panic_witness :
    alookup ioStale.inputs (inPort 1) = none ∧
      ioStale.get_input (inPort 1) (.vf 7) = .ok (.vf 7) ∧
      alookup ioStale.inputs qIn = some (.vb true) ∧
      (Val.vb true).tyOf ≠ qIn.id.value_type ∧
      ioStale.get_input qIn (.vf 7) = .panic "should have this" :=
  ⟨by decide,
   (c9_get_input_default_or_panic ioStale (inPort 1) (.vf 7)).1 (by decide),
   by decide,
   by decide,
   (c9_get_input_default_or_panic ioStale qIn (.vf 7)).2 (.vb true) (by decide) (by decide) rfl⟩

/-- C10: `disconnect(from, to)` is not atomic with respect to edge existence:
whenever the connection map has an entry for `from` — even one whose input set
does not contain `to` — the staged value at `to` is removed (so a directly
assigned value of an unconnected input can be erased by a disconnect naming an
unrelated output); when the map has no entry for `from`, nothing changes at
all. -/
theorem c10_disconnect_erases_unrelated_input (io : IoState) (src dst : PortHandle) :
    (∀ s, alookup io.connections src = some s →
      (io.inputs.map Prod.fst).Nodup →
      ∀ io1, io.disconnect src dst = some io1 → alookup io1.inputs dst = none) ∧
      (alookup io.connections src = none → io.disconnect src dst = some io) := by
  constructor
  · intro s hs hnd io1 h
    rcases disconnect_some_inv io io1 src dst h with ⟨hnone, _⟩ | ⟨s2, _, hin, _, _⟩
    · rw [hs] at hnone
      cases hnone
    · rw [hin]
      exact alookup_aremove_self io.inputs dst hnd
  · intro hnone
    unfold IoState.disconnect
    rw [hnone]

/-- Result state of the C10 witness disconnect: the staged value at `qIn` is
gone although no edge to `qIn` ever existed. -/
def ioPropagate1 : IoState := ⟨[], [(outPort 0, [inPort 1])], [], [[0], [1]]⟩

theorem c10_disconnect_erases_unrelated_input_witness :
    alookup ioPropagate.connections (outPort 0) = some [inPort 1] ∧
      qIn ∉ [inPort 1] ∧
      alookup ioPropagate.inputs qIn = some (.vf 5) ∧
      ioPropagate.disconnect (outPort 0) qIn = some ioPropagate1 ∧
      alookup ioPropagate1.inputs qIn = none :=
  ⟨by decide, by decide, by decide, by rfl,
   (c10_disconnect_erases_unrelated_input ioPropagate (outPort 0) qIn).1
     [inPort 1] (by decide) (by decide) ioPropagate1 (by rfl)⟩

/-- C6: for a connected input port, `disconnect(from, to)` removes the edge
and clears the staged input value at `to`, so the next `get_input` on that
port returns the declared default value rather than the last propagated
value. -/
theorem c6_disconnect_resets_to_default (io io1 : IoState) (src dst : PortHandle)
    (s : List PortHandle) (hwf : IoWF io)
    (hal : alookup io.connections src = some s) (hmem : dst ∈ s)
    (h : io.disconnect src dst = some io1) :
    ¬ edgeIn io1 src dst ∧ alookup io1.inputs dst = none ∧
      ∀ dflt, io1.get_input dst dflt = .ok dflt := by
  rcases disconnect_some_inv io io1 src dst h with ⟨hnone, _⟩ | ⟨s2, hal2, hin, hconn, _⟩
  · rw [hal] at hnone
    cases hnone
  · rw [hal] at hal2
    injection hal2 with hs2
    subst hs2
    have hsnd : s.Nodup := hwf.2.1 (src, s) (alookup_mem _ _ _ hal)
    have hClear : alookup io1.inputs dst = none := by
      rw [hin]
      exact alookup_aremove_self io.inputs dst hwf.2.2
    refine ⟨?_, hClear, fun dflt => get_input_of_none io1 dst dflt hClear⟩
    unfold edgeIn
    rw [hconn, alookup_aupdate_self, Option.getD_some]
    have hcount : (s.erase dst).count dst = 0 := by
      rw [List.count_erase_self]
      have := (List.nodup_iff_count_le_one.mp hsnd) dst
      omega
    exact List.count_eq_zero.mp hcount

instance (io : IoState) : Decidable (IoWF io) := by
  unfold IoWF
  infer_instance

/-- Witness state for C6: edge from `outPort 0` to `inPort 1` with the last
propagated value staged at `inPort 1`. -/
def ioConnected : IoState := ⟨[(inPort 1, .vf 42)], [(outPort 0, [inPort 1])], [], [[0], [1]]⟩

/-- State after disconnecting the only edge of `ioConnected`. -/
def ioDisconnected : IoState := ⟨[], [(outPort 0, [])], [], []⟩

theorem c6_disconnect_resets_to_default_witness :
    IoWF ioConnected ∧
      alookup ioConnected.inputs (inPort 1) = some (.vf 42) ∧
      ioConnected.disconnect (outPort 0) (inPort 1) = some ioDisconnected ∧
      ¬ edgeIn ioDisconnected (outPort 0) (inPort 1) ∧
      alookup ioDisconnected.inputs (inPort 1) = none ∧
      ioDisconnected.get_input (inPort 1) (.vf 7) = .ok (.vf 7) := by
  have h := c6_disconnect_resets_to_default ioConnected ioDisconnected
    (outPort 0) (inPort 1) [inPort 1] (by decide) (by rfl) (by decide) (by rfl)
  exact ⟨by decide, by decide, by rfl, h.1, h.2.1, h.2.2 (.vf 7)⟩

theorem get_conversion_some_conversionOk (io : IoState) (src dst : PortHandle) (f : Val → Val)
    (h : io.get_conversion dst.id src.id.value_type = some f) : conversionOk io src dst := by
  unfold IoState.get_conversion at h
  unfold conversionOk ConversionId.from_ports ConversionId.into_general
  dsimp only at h ⊢
  cases hsp : alookup io.conversions ⟨src.id.value_type, dst.id.value_type, some dst.id⟩ with
  | some g =>
    left
    rfl
  | none =>
    rw [hsp] at h
    dsimp only at h
    unfold ConversionId.into_general at h
    right
    rw [h]
    rfl

theorem can_connect_into_ok (io : IoState) (src dst : PortHandle)
    (h1 : src.id.value_type = dst.id.value_type ∨ conversionOk io src dst) :
    ∃ r, (io.can_connect src dst).into_result = .ok r := by
  cases hic : io.input_connection dst with
  | some c =>
    rw [can_connect_of_source io src dst c h1 hic]
    exact ⟨_, rfl⟩
  | none =>
    rcases can_connect_of_no_source io src dst h1 hic with h | h <;> rw [h] <;> exact ⟨_, rfl⟩

/-- C5: for ports of different declared value types, a registered conversion
(resolved port-specific first, then type-general) makes `can_connect`
succeed, and after a successful `connect` and `set_output` the target input
reads back the converted value; with no registered conversion for the type
pair, `can_connect`/`connect` report Incompatible and the state is
unchanged. -/
theorem c5_conversion_connect_and_get_input :
    (∀ (io : IoState) (src dst : PortHandle),
      src.id.value_type ≠ dst.id.value_type →
      alookup io.conversions (ConversionId.from_ports src dst) = none →
      alookup io.conversions (ConversionId.from_ports src dst).into_general = none →
      io.can_connect src dst = .InCompatible ∧
        io.connect src dst = some (.error .InCompatible, io)) ∧
    (∀ (io : IoState) (pid : PortId) (ty : Ty) (f : Val → Val),
      alookup io.conversions ⟨ty, pid.value_type, some pid⟩ = some f →
      io.get_conversion pid ty = some f) ∧
    (∀ (io : IoState) (pid : PortId) (ty : Ty) (g : Val → Val),
      alookup io.conversions ⟨ty, pid.value_type, some pid⟩ = none →
      alookup io.conversions (ConversionId.into_general ⟨ty, pid.value_type, some pid⟩) = some g →
      io.get_conversion pid ty = some g) ∧
    (∀ (io : IoState) (src dst : PortHandle) (f : Val → Val),
      src.id.value_type ≠ dst.id.value_type →
      io.get_conversion dst.id src.id.value_type = some f →
      (∃ r, (io.can_connect src dst).into_result = .ok r) ∧
      (∀ io2 r, io.connect src dst = some (.ok r, io2) →
        ∀ v dflt, v.tyOf = src.id.value_type → (f v).tyOf = dst.id.value_type →
          (io2.set_output_dyn src v).get_input dst dflt = .ok (f v))) := by
  refine ⟨?_, ?_, ?_, ?_⟩
  · intro io src dst hvt hsp hgen
    have hcc : io.can_connect src dst = .InCompatible := by
      rw [can_connect_eq, if_neg hvt, if_neg (by simp [hsp, hgen])]
    refine ⟨hcc, ?_⟩
    unfold IoState.connect
    rw [hcc]
    rfl
  · intro io pid ty f hsp
    unfold IoState.get_conversion
    dsimp only
    rw [hsp]
  · intro io pid ty g hsp hgen
    unfold IoState.get_conversion
    dsimp only
    rw [hsp, hgen]
  · intro io src dst f hvt hf
    have hcOk : conversionOk io src dst := get_conversion_some_conversionOk io src dst f hf
    refine ⟨can_connect_into_ok io src dst (Or.inr hcOk), ?_⟩
    intro io2 r hcon v dflt hvty hfty
    obtain ⟨hcc, hin, hcv, hconn⟩ := connect_some_ok_inv io io2 src dst r hcon
    have hstaged : alookup (io2.set_output_dyn src v).inputs dst = some v := by
      unfold IoState.set_output_dyn
      rw [hconn, alookup_aupdate_self]
      rw [foldl_set_input_lookup]
      rw [if_pos (mem_setInsert_self _ _)]
    have hcv3 : (io2.set_output_dyn src v).conversions = io.conversions := by
      rw [(set_output_dyn_fields io2 src v).2, hcv]
    unfold IoState.get_input IoState.try_get_input IoState.get_input_dyn IoState.try_convert
    rw [hstaged]
    dsimp only
    rw [hvty, if_neg hvt]
    rw [get_conversion_congr io _ dst.id src.id.value_type hcv3, hf]
    dsimp only
    rw [if_pos hfty]

/-- Conversion closure from bool values to f32 values, modelling a registered
adapter like `Conversion::new_type`. -/
def convBoolToF : Val → Val :=
  fun v => match v with
  | .vb b => .vf (if b then 1 else 0)
  | x => x

/-- Output port carrying bool on instance 0. -/
def bOut : PortHandle := ⟨⟨3, .tb⟩, 0⟩

/-- Input port carrying f32 on instance 1. -/
def fIn : PortHandle := ⟨⟨4, .tf⟩, 1⟩

/-- State with only the type-general bool→f32 conversion registered. -/
def ioCv : IoState := ⟨[], [], [(⟨.tb, .tf, none⟩, convBoolToF)], []⟩

/-- State after connecting `bOut` to `fIn` through the conversion. -/
def ioCv2 : IoState := ⟨[], [(bOut, [fIn])], [(⟨.tb, .tf, none⟩, convBoolToF)], [[0], [1]]⟩

/-- Empty Io state. -/
def ioEmpty : IoState := ⟨[], [], [], []⟩

theorem c5_conversion_connect_and_get_input_witness :
    ioEmpty.can_connect bOut fIn = .InCompatible ∧
      ioEmpty.connect bOut fIn = some (.error .InCompatible, ioEmpty) ∧
      ioCv.get_conversion fIn.id .tb = some convBoolToF ∧
      ioCv.connect bOut fIn = some (.ok .Conversion, ioCv2) ∧
      (ioCv2.set_output_dyn bOut (.vb true)).get_input fIn (.vf 0)
        = .ok (convBoolToF (.vb true)) := by
  have h1 := c5_conversion_connect_and_get_input.1 ioEmpty bOut fIn (by decide) rfl rfl
  have h3 := c5_conversion_connect_and_get_input.2.2.1 ioCv fIn.id .tb convBoolToF rfl rfl
  have h4 := (c5_conversion_connect_and_get_input.2.2.2 ioCv bOut fIn convBoolToF
    (by decide) rfl).2 ioCv2 .Conversion rfl (.vb true) (.vf 0) rfl rfl
  exact ⟨h1.1, h1.2, h3, rfl, h4⟩

theorem rack_connect_eq_of_ok_or_conv (io : IoState) (src dst : PortHandle)
    (hcc : io.can_connect src dst = .Ok ∨ io.can_connect src dst = .Conversion) :
    rack_connect io src dst =
      (match io.connect src dst with
       | none => none
       | some (_, io3) => some (.ok io3)) := by
  unfold rack_connect
  rcases hcc with h | h <;> rw [h]

theorem rack_connect_eq_of_replace (io : IoState) (src dst c d : PortHandle)
    (hcc : io.can_connect src dst = .Replace c d) :
    rack_connect io src dst =
      (match io.disconnect c d with
       | none => none
       | some io1 =>
         match io1.connect src dst with
         | none => none
         | some (_, io3) => some (.ok io3)) := by
  unfold rack_connect
  rw [hcc]

theorem rack_connect_direct_path (io io2 : IoState) (src dst : PortHandle)
    (hwf : IoWF io) (hinv : IoInv io)
    (hcc0 : io.can_connect src dst = .Ok ∨ io.can_connect src dst = .Conversion)
    (h : rack_connect io src dst = some (.ok io2)) :
    IoWF io2 ∧ IoInv io2 ∧ edgeIn io2 src dst ∧ incomingCount io2 dst = 1 ∧
      (∀ p, p ≠ dst → incomingCount io2 p = incomingCount io p) := by
  have hic : io.input_connection dst = none := can_connect_no_source_of_ok_or_conv io src dst hcc0
  have hinc0 : incomingCount io dst = 0 := sumCount_zero_of_findSrc_none io.connections dst hic
  rw [rack_connect_eq_of_ok_or_conv io src dst hcc0] at h
  cases hc2 : io.connect src dst with
  | none =>
    rw [hc2] at h
    simp at h
  | some pr =>
    obtain ⟨x, io2m⟩ := pr
    rw [hc2] at h
    simp only [Option.some.injEq, Except.ok.injEq] at h
    subst h
    cases x with
    | error e =>
      obtain ⟨hh, _⟩ := connect_some_err_inv io io2m src dst e hc2
      rcases hcc0 with h1 | h1 <;> rw [h1] at hh <;> simp [ConnectResult.into_result] at hh
    | ok r =>
      obtain ⟨hwf2, hedge, hother, hone, _, _, _⟩ := connect_effects io io2m src dst r hwf hc2
      refine ⟨hwf2, ?_, hedge, hone hinc0, hother⟩
      intro p
      by_cases hp : p = dst
      · subst hp
        rw [hone hinc0]
      · rw [hother p hp]
        exact hinv p

theorem rack_connect_replace_path (io io2 : IoState) (src dst c : PortHandle)
    (hwf : IoWF io) (hinv : IoInv io)
    (hcc : io.can_connect src dst = .Replace c dst)
    (h : rack_connect io src dst = some (.ok io2)) :
    IoWF io2 ∧ IoInv io2 ∧ edgeIn io2 src dst ∧ incomingCount io2 dst = 1 ∧
      (c ≠ src → ¬ edgeIn io2 c dst) := by
  obtain ⟨_, hic, hcompat⟩ := can_connect_replace_inv io src dst c dst hcc
  obtain ⟨s, hsmem, hdmem⟩ := findSrc_some_mem io.connections dst c hic
  have hal : alookup io.connections c = some s := alookup_of_mem_keysNodup _ _ _ hwf.1 hsmem
  rw [rack_connect_eq_of_replace io src dst c dst hcc] at h
  cases hd : io.disconnect c dst with
  | none =>
    rw [hd] at h
    simp at h
  | some io1 =>
    rw [hd] at h
    dsimp only at h
    obtain ⟨hwf1, hinc0, hincp, halc1, halk1, hnm1, hin1, hcv1⟩ :=
      disconnect_effects_found io io1 c dst s hwf hinv hal hdmem hd
    have hcompat1 : src.id.value_type = dst.id.value_type ∨ conversionOk io1 src dst := by
      rcases hcompat with hv | hc
      · exact Or.inl hv
      · right
        unfold conversionOk at hc ⊢
        rw [hcv1]
        exact hc
    have hic1 : io1.input_connection dst = none :=
      findSrc_none_of_sumCount_zero io1.connections dst hinc0
    have hcc1 := can_connect_of_no_source io1 src dst hcompat1 hic1
    cases hc2 : io1.connect src dst with
    | none =>
      rw [hc2] at h
      simp at h
    | some pr =>
      obtain ⟨x, io2m⟩ := pr
      rw [hc2] at h
      simp only [Option.some.injEq, Except.ok.injEq] at h
      subst h
      cases x with
      | error e =>
        obtain ⟨hh, _⟩ := connect_some_err_inv io1 io2m src dst e hc2
        rcases hcc1 with h1 | h1 <;> rw [h1] at hh <;> simp [ConnectResult.into_result] at hh
      | ok r =>
        obtain ⟨hwf2, hedge, hother, hone, halk2, _, _⟩ := connect_effects io1 io2m src dst r hwf1 hc2
        refine ⟨hwf2, ?_, hedge, hone hinc0, ?_⟩
        · intro p
          by_cases hp : p = dst
          · subst hp
            rw [hone hinc0]
          · rw [hother p hp, hincp p hp]
            exact hinv p
        · intro hcs
          unfold edgeIn
          rw [halk2 c hcs, halc1, Option.getD_some]
          exact hnm1

/-- C3: connecting a compatible (or convertible) source to an input that
already has a source C reports the replacement `Replace(C, to)`; after the
rack-level connect succeeds the old edge C→to is gone, the new edge exists,
and the input has exactly one incoming edge; moreover every rack-level connect
and every disconnect preserves the invariant that each input port has at most
one incoming edge. -/
theorem c3_replace_and_single_incoming_invariant :
    (∀ (io : IoState) (src dst c : PortHandle),
      IoWF io → IoInv io →
      io.input_connection dst = some c →
      (src.id.value_type = dst.id.value_type ∨ conversionOk io src dst) →
      io.can_connect src dst = .Replace c dst ∧
        ∀ io2, rack_connect io src dst = some (.ok io2) →
          edgeIn io2 src dst ∧ incomingCount io2 dst = 1 ∧
            (c ≠ src → ¬ edgeIn io2 c dst)) ∧
    (∀ (io io2 : IoState) (src dst : PortHandle),
      IoWF io → IoInv io → rack_connect io src dst = some (.ok io2) →
      IoWF io2 ∧ IoInv io2) ∧
    (∀ (io io1 : IoState) (src dst : PortHandle),
      IoWF io → IoInv io → io.disconnect src dst = some io1 →
      IoWF io1 ∧ IoInv io1) := by
  refine ⟨?_, ?_, ?_⟩
  · intro io src dst c hwf hinv hic hcompat
    have hcc : io.can_connect src dst = .Replace c dst :=
      can_connect_of_source io src dst c hcompat hic
    refine ⟨hcc, ?_⟩
    intro io2 h
    obtain ⟨_, _, hedge, hone, hold⟩ :=
      rack_connect_replace_path io io2 src dst c hwf hinv hcc h
    exact ⟨hedge, hone, hold⟩
  · intro io io2 src dst hwf hinv h
    cases hcc0 : io.can_connect src dst with
    | Ok =>
      obtain ⟨hwf2, hinv2, _, _, _⟩ :=
        rack_connect_direct_path io io2 src dst hwf hinv (Or.inl hcc0) h
      exact ⟨hwf2, hinv2⟩
    | Conversion =>
      obtain ⟨hwf2, hinv2, _, _, _⟩ :=
        rack_connect_direct_path io io2 src dst hwf hinv (Or.inr hcc0) h
      exact ⟨hwf2, hinv2⟩
    | Replace c d =>
      obtain ⟨hd, _, _⟩ := can_connect_replace_inv io src dst c d hcc0
      rw [hd] at hcc0
      obtain ⟨hwf2, hinv2, _, _, _⟩ :=
        rack_connect_replace_path io io2 src dst c hwf hinv hcc0 h
      exact ⟨hwf2, hinv2⟩
    | SameInstance =>
      unfold rack_connect at h
      rw [hcc0] at h
      simp at h
    | InCompatible =>
      unfold rack_connect at h
      rw [hcc0] at h
      simp at h
  · intro io io1 src dst hwf hinv h
    exact disconnect_preserves io io1 src dst hwf hinv h

/-- Output port of instance 2 acting as the replaced source in the C3
witness. -/
def rOut : PortHandle := ⟨⟨6, .tf⟩, 2⟩

/-- Output port of instance 4 acting as the new source in the C3 witness. -/
def nOut : PortHandle := ⟨⟨7, .tf⟩, 4⟩

/-- Input port of instance 5 in the C3 witness. -/
def rIn : PortHandle := ⟨⟨8, .tf⟩, 5⟩

/-- Witness state for C3: input `rIn` already connected from `rOut` with a
propagated value staged at it. -/
def ioRep : IoState := ⟨[(rIn, .vf 9)], [(rOut, [rIn])], [], [[2], [5]]⟩

/-- Witness result state for C3 after the rack-level replace connect. -/
def ioRep2 : IoState := ⟨[], [(rOut, []), (nOut, [rIn])], [], [[4], [5]]⟩

theorem c3_replace_and_single_incoming_invariant_witness :
    IoWF ioRep ∧
      ioRep.input_connection rIn = some rOut ∧
      ioRep.can_connect nOut rIn = .Replace rOut rIn ∧
      rack_connect ioRep nOut rIn = some (.ok ioRep2) ∧
      edgeIn ioRep2 nOut rIn ∧ incomingCount ioRep2 rIn = 1 ∧
      ¬ edgeIn ioRep2 rOut rIn ∧
      IoWF ioRep2 ∧ IoInv ioRep2 := by
  have hinv : IoInv ioRep := by
    intro p
    have hc := List.count_le_length p [rIn]
    simp only [incomingCount, sumCount, ioRep, List.map_cons, List.map_nil, List.sum_cons,
      List.sum_nil, List.length_cons, List.length_nil] at hc ⊢
    omega
  have hA := c3_replace_and_single_incoming_invariant.1 ioRep nOut rIn rOut
    (by decide) hinv (by rfl) (Or.inl rfl)
  have hImp := hA.2 ioRep2 (by rfl)
  have hB := c3_replace_and_single_incoming_invariant.2.1 ioRep ioRep2 nOut rIn
    (by decide) hinv (by rfl)
  exact ⟨by decide, by rfl, hA.1, by rfl, hImp.1, hImp.2.1, hImp.2.2 (by decide),
    hB.1, hB.2⟩

